import Mathlib

/-!
Verification of the dimension-virtualization layer (BatchedTensorImpl.h).

The header `src/aten/src/ATen/BatchedTensorImpl.h` is embedded shallowly:
`BatchDim`, `BatchedTensorImpl`, `isBatched`, `maybeGetBatched`,
`createBatchDimBitset` and `makeBatched` are translated from the source.
The bodies of `actualDim`, `sizes`, the structural-query overrides, the
`BatchedTensorImpl` constructor and `addBatchDim` live in a translation
unit that is not part of the source tree here; those are modelled from the
spec and marked as such in their doc comments.
-/

namespace Vmap

/-- Error taxonomy of the batching core (spec section 7). -/
inductive VmapError where
  | AlreadyWrapped
  | RankExceeded
  | DimOutOfRange
  | NotSupported
deriving DecidableEq, Repr

/-- A BatchDim is a (level, dim) pair identifying one hidden batch
dimension; embeds `struct BatchDim` of BatchedTensorImpl.h. -/
structure BatchDim where
  level : Int
  dim : Int
deriving DecidableEq, Repr

/-- The hidden-dim sequence; the `SmallVector` of the source modelled as a
list (the inline capacity is a performance detail only). -/
abbrev BatchDims := List BatchDim

/-- `kVmapMaxTensorDims` from the source. -/
def kVmapMaxTensorDims : Int := 64

/-- A BatchedTensorImpl holds an underlying tensor (represented by its
sizes) and a list of BatchDim; embeds `struct BatchedTensorImpl`. -/
structure BatchedTensorImpl where
  value : List Int
  bdims : BatchDims
deriving DecidableEq, Repr

/-- A tensor is either a plain tensor (given by its sizes) or a batched
wrapper; being batched corresponds to the Batched dispatch key being in
the tensor's key set. -/
inductive Tensor where
  | plain (sizes : List Int)
  | batched (impl : BatchedTensorImpl)
deriving DecidableEq, Repr

/-- publicRank: `underlying.rank() - hiddenDims.size()`, the number of
user-visible dimensions. -/
def publicRank (b : BatchedTensorImpl) : Int :=
  (b.value.length : Int) - (b.bdims.length : Int)

/-- `tensor.dim()`: the rank of a plain tensor, the public rank of a
batched wrapper. -/
def Tensor.dim : Tensor → Int
  | .plain s => (s.length : Int)
  | .batched b => publicRank b

/-- The sizes of the tensor handed to the BatchedTensorImpl constructor. -/
def Tensor.rawSizes : Tensor → List Int
  | .plain s => s
  | .batched b => b.value

/-- `isBatched` from the source: true exactly when the tensor carries the
Batched dispatch key, i.e. is backed by a BatchedTensorImpl. -/
def isBatched : Tensor → Bool
  | .plain _ => false
  | .batched _ => true

/-- `maybeGetBatched` from the source: the wrapper when `isBatched`, else
null (`none`). -/
def maybeGetBatched : Tensor → Option BatchedTensorImpl
  | .plain _ => none
  | .batched b => some b

/-- Whether underlying axis `i` is hidden, i.e. appears as the `dim` of
some entry of `bdims`. -/
def isBdim (b : BatchedTensorImpl) (i : Nat) : Bool :=
  b.bdims.any (fun bd => bd.dim == (i : Int))

/-- The walk of spec section 4.1: underlying axis indices
`0 .. underlying.rank()-1` in order with the hidden ones skipped. -/
def nonHiddenAxes (b : BatchedTensorImpl) : List Nat :=
  (List.range b.value.length).filter (fun i => ! isBdim b i)

/-- Modelled from the spec: `BatchedTensorImpl::actualDim` (declared in the
header, body in BatchedTensorImpl.cpp which is missing from the tree).
If `wrap_dim`, a negative `dim` is first normalized by adding
`publicRank()`; then `0 <= dim < publicRank()` is validated (else
`DimOutOfRange`) and the `dim`-th non-hidden underlying axis of the walk
is returned. -/
def actualDim (b : BatchedTensorImpl) (dim : Int) (wrap_dim : Bool) :
    Except VmapError Int :=
  let d := if wrap_dim ∧ dim < 0 then dim + publicRank b else dim
  if 0 ≤ d ∧ d < publicRank b then
    Except.ok (((nonHiddenAxes b).getD d.toNat 0 : Nat) : Int)
  else
    Except.error VmapError.DimOutOfRange

/-- Modelled from the spec: `sizes()` of a batched wrapper (computed by the
BatchedTensorImpl constructor in BatchedTensorImpl.cpp, missing from the
tree) reports only the public dimensions, in public order, by filtering
out underlying sizes at hidden axis positions. -/
def sizes (b : BatchedTensorImpl) : List Int :=
  (nonHiddenAxes b).map (fun i => b.value.getD i 0)

/-- Memory formats that `is_contiguous` can be asked about. -/
inductive MemoryFormat where
  | Contiguous
  | ChannelsLast
  | Preserve
deriving DecidableEq, Repr

/-- Modelled from the spec: `is_contiguous` refuses with `NotSupported`
(override declared in the header, body missing from the tree). -/
def is_contiguous (_b : BatchedTensorImpl) (_memory_format : MemoryFormat) :
    Except VmapError Bool :=
  Except.error VmapError.NotSupported

/-- Modelled from the spec: `strides()` refuses with `NotSupported`. -/
def strides (_b : BatchedTensorImpl) : Except VmapError (List Int) :=
  Except.error VmapError.NotSupported

/-- Modelled from the spec: `stride(d)` refuses with `NotSupported`. -/
def stride (_b : BatchedTensorImpl) (_d : Int) : Except VmapError Int :=
  Except.error VmapError.NotSupported

/-- Modelled from the spec: `set_size` refuses with `NotSupported`. -/
def set_size (_b : BatchedTensorImpl) (_dim _new_size : Int) :
    Except VmapError BatchedTensorImpl :=
  Except.error VmapError.NotSupported

/-- Modelled from the spec: `set_stride` refuses with `NotSupported`. -/
def set_stride (_b : BatchedTensorImpl) (_dim _new_stride : Int) :
    Except VmapError BatchedTensorImpl :=
  Except.error VmapError.NotSupported

/-- Modelled from the spec: `set_storage_offset` refuses with
`NotSupported`. -/
def set_storage_offset (_b : BatchedTensorImpl) (_offset : Int) :
    Except VmapError BatchedTensorImpl :=
  Except.error VmapError.NotSupported

/-- Modelled from the spec: `has_storage` refuses with `NotSupported`. -/
def has_storage (_b : BatchedTensorImpl) : Except VmapError Bool :=
  Except.error VmapError.NotSupported

/-- Modelled from the spec: `storage` refuses with `NotSupported`. -/
def storage (_b : BatchedTensorImpl) : Except VmapError Unit :=
  Except.error VmapError.NotSupported

/-- Modelled from the spec: `storage_offset` refuses with `NotSupported`. -/
def storage_offset (_b : BatchedTensorImpl) : Except VmapError Int :=
  Except.error VmapError.NotSupported

/-- `makeBatched` from the source: asserts the input is not already batched
(`AlreadyWrapped`), checks `tensor.dim() <= kVmapMaxTensorDims`
(`RankExceeded`), and otherwise wraps the tensor with the caller-supplied
bdims copied in unchanged. -/
def makeBatched (tensor : Tensor) (bdims : BatchDims) :
    Except VmapError Tensor :=
  if isBatched tensor then Except.error VmapError.AlreadyWrapped
  else if kVmapMaxTensorDims < tensor.dim then
    Except.error VmapError.RankExceeded
  else Except.ok (Tensor.batched ⟨tensor.rawSizes, bdims⟩)

/-- Modelled from the spec: `addHiddenDim` (the logical operation behind
`addBatchDim`, declared in the header, body missing from the tree):
produces a fresh wrapper over the same underlying value whose hidden-dim
sequence is the old sequence with the new (level, dim) pair appended. -/
def addHiddenDim (b : BatchedTensorImpl) (level dim : Int) :
    BatchedTensorImpl :=
  ⟨b.value, b.bdims ++ [⟨level, dim⟩]⟩

/-- `createBatchDimBitset` from the source: a `kVmapMaxTensorDims`-wide
bitset (modelled as a natural number) in which bit `bdim.dim()` is set for
each entry of `bdims`. -/
def createBatchDimBitset (bdims : BatchDims) : Nat :=
  bdims.foldl (fun s bd => s ||| 2 ^ bd.dim.toNat) 0

/-- Invariants I1 and I2 of the spec relative to an underlying rank `n`:
levels strictly ascending, `dim` values pairwise distinct and inside
`[0, n)`. -/
def WellFormedDims (n : Nat) (bdims : BatchDims) : Prop :=
  bdims.Pairwise (fun x y => x.level < y.level) ∧
  (bdims.map BatchDim.dim).Nodup ∧
  ∀ bd ∈ bdims, 0 ≤ bd.dim ∧ bd.dim < (n : Int)

/-- A well-formed batched wrapper: its bdims satisfy I1/I2 relative to the
underlying rank. -/
def WellFormed (b : BatchedTensorImpl) : Prop :=
  WellFormedDims b.value.length b.bdims

/-- The hidden counterpart of `nonHiddenAxes`: the underlying axes that are
hidden, in increasing order. -/
def hiddenAxes (b : BatchedTensorImpl) : List Nat :=
  (List.range b.value.length).filter (fun i => isBdim b i)

theorem filter_split_length {α : Type} (p : α → Bool) :
    ∀ l : List α,
      (l.filter p).length + (l.filter (fun a => ! p a)).length = l.length
  | [] => rfl
  | a :: l => by
    have ih := filter_split_length p l
    by_cases h : p a = true <;> simp [List.filter_cons, h] <;> omega

theorem isBdim_eq_true_iff (b : BatchedTensorImpl) (i : Nat) :
    isBdim b i = true ↔ ∃ bd ∈ b.bdims, bd.dim = (i : Int) := by
  simp [isBdim]

theorem mem_nonHiddenAxes (b : BatchedTensorImpl) (i : Nat) :
    i ∈ nonHiddenAxes b ↔ i < b.value.length ∧ isBdim b i = false := by
  simp [nonHiddenAxes, List.mem_filter, List.mem_range, Bool.not_eq_true']

theorem mem_hiddenAxes (b : BatchedTensorImpl) (i : Nat) :
    i ∈ hiddenAxes b ↔ i < b.value.length ∧ isBdim b i = true := by
  simp [hiddenAxes, List.mem_filter, List.mem_range]

theorem hiddenAxes_perm (b : BatchedTensorImpl)
    (hnd : (b.bdims.map BatchDim.dim).Nodup)
    (hin : ∀ bd ∈ b.bdims, 0 ≤ bd.dim ∧ bd.dim < (b.value.length : Int)) :
    List.Perm (hiddenAxes b) (b.bdims.map (fun bd => bd.dim.toNat)) := by
  have hA : (hiddenAxes b).Nodup := (List.nodup_range _).filter _
  have hD : (b.bdims.map (fun bd => bd.dim.toNat)).Nodup := by
    have : b.bdims.map (fun bd => bd.dim.toNat)
        = (b.bdims.map BatchDim.dim).map Int.toNat := by
      rw [List.map_map]
      rfl
    rw [this]
    refine hnd.map_on ?_
    intro x hx y hy hxy
    simp only [List.mem_map] at hx hy
    obtain ⟨bx, hbx, rfl⟩ := hx
    obtain ⟨bz, hbz, rfl⟩ := hy
    have h1 := (hin bx hbx).1
    have h2 := (hin bz hbz).1
    omega
  rw [List.perm_ext_iff_of_nodup hA hD]
  intro a
  rw [mem_hiddenAxes, isBdim_eq_true_iff]
  simp only [List.mem_map]
  constructor
  · rintro ⟨hlt, bd, hbd, hdim⟩
    exact ⟨bd, hbd, by omega⟩
  · rintro ⟨bd, hbd, hdim⟩
    have h1 := (hin bd hbd).1
    have h2 := (hin bd hbd).2
    exact ⟨by omega, bd, hbd, by omega⟩

theorem hiddenAxes_length (b : BatchedTensorImpl)
    (hnd : (b.bdims.map BatchDim.dim).Nodup)
    (hin : ∀ bd ∈ b.bdims, 0 ≤ bd.dim ∧ bd.dim < (b.value.length : Int)) :
    (hiddenAxes b).length = b.bdims.length :=
  ((hiddenAxes_perm b hnd hin).length_eq).trans (List.length_map _ _)

theorem bdims_length_le (b : BatchedTensorImpl)
    (hnd : (b.bdims.map BatchDim.dim).Nodup)
    (hin : ∀ bd ∈ b.bdims, 0 ≤ bd.dim ∧ bd.dim < (b.value.length : Int)) :
    b.bdims.length ≤ b.value.length := by
  rw [← hiddenAxes_length b hnd hin]
  have := (List.filter_sublist (p := fun i => isBdim b i)
    (List.range b.value.length)).length_le
  simpa [hiddenAxes] using this

theorem nonHiddenAxes_length (b : BatchedTensorImpl)
    (hnd : (b.bdims.map BatchDim.dim).Nodup)
    (hin : ∀ bd ∈ b.bdims, 0 ≤ bd.dim ∧ bd.dim < (b.value.length : Int)) :
    (nonHiddenAxes b).length = b.value.length - b.bdims.length := by
  have h1 := filter_split_length (fun i => isBdim b i) (List.range b.value.length)
  have h2 := hiddenAxes_length b hnd hin
  simp only [hiddenAxes] at h2
  simp only [nonHiddenAxes]
  simp only [List.length_range] at h1
  omega

theorem publicRank_eq_length (b : BatchedTensorImpl)
    (hnd : (b.bdims.map BatchDim.dim).Nodup)
    (hin : ∀ bd ∈ b.bdims, 0 ≤ bd.dim ∧ bd.dim < (b.value.length : Int)) :
    publicRank b = ((nonHiddenAxes b).length : Int) := by
  have h1 := nonHiddenAxes_length b hnd hin
  have h2 := bdims_length_le b hnd hin
  simp only [publicRank]
  omega

theorem nonHiddenAxes_sorted (b : BatchedTensorImpl) :
    (nonHiddenAxes b).Pairwise (· < ·) :=
  (List.pairwise_lt_range _).filter _

theorem actualDim_eq_get (b : BatchedTensorImpl) (p : Nat)
    (hp : p < (nonHiddenAxes b).length)
    (hpr : (p : Int) < publicRank b) :
    actualDim b (p : Int) true
      = Except.ok (((nonHiddenAxes b).get ⟨p, hp⟩ : Nat) : Int) := by
  have h0 : ¬ ((p : Int) < 0) := by omega
  simp only [actualDim, h0, and_false, if_false, true_and, if_neg,
    not_false_iff]
  rw [if_pos ⟨by omega, hpr⟩]
  congr 1
  rw [show ((p : Int)).toNat = p by omega]
  exact congrArg _ (List.getD_eq_get _ _ hp)

/-- A concrete rank-4 wrapper used in witnesses: underlying sizes
(2, 3, 5, 7) with hidden dims [(level 1, dim 0), (level 2, dim 1)]. -/
def bt4 : BatchedTensorImpl :=
  ⟨[2, 3, 5, 7], [⟨1, 0⟩, ⟨2, 1⟩]⟩

/-- Claim C1: for a well-formed BatchedValue, every valid public index is
translated by actualDim to a non-hidden underlying axis, the image of
actualDim over the valid public indices is exactly the set of non-hidden
underlying axes, and actualDim is strictly increasing in the public
index. -/
theorem actualDim_translation_correct (b : BatchedTensorImpl)
    (h : WellFormed b) :
    (∀ p : Nat, (p : Int) < publicRank b →
      ∃ a : Nat, actualDim b (p : Int) true = Except.ok (a : Int) ∧
        a < b.value.length ∧ isBdim b a = false) ∧
    (∀ a : Nat, a < b.value.length → isBdim b a = false →
      ∃ p : Nat, (p : Int) < publicRank b ∧
        actualDim b (p : Int) true = Except.ok (a : Int)) ∧
    (∀ p q : Nat, (q : Int) < publicRank b → p < q →
      ∀ ap aq : Int, actualDim b (p : Int) true = Except.ok ap →
        actualDim b (q : Int) true = Except.ok aq → ap < aq) := by
  obtain ⟨_hlvl, hnd, hin⟩ := h
  have hlen := publicRank_eq_length b hnd hin
  refine ⟨?_, ?_, ?_⟩
  · intro p hp
    have hp' : p < (nonHiddenAxes b).length := by omega
    refine ⟨(nonHiddenAxes b).get ⟨p, hp'⟩, actualDim_eq_get b p hp' hp, ?_⟩
    have hmem : (nonHiddenAxes b).get ⟨p, hp'⟩ ∈ nonHiddenAxes b :=
      List.get_mem _ _ _
    exact (mem_nonHiddenAxes b _).mp hmem
  · intro a ha hbd
    have hmem : a ∈ nonHiddenAxes b := (mem_nonHiddenAxes b a).mpr ⟨ha, hbd⟩
    obtain ⟨idx, hidx⟩ := List.mem_iff_get.mp hmem
    refine ⟨idx.1, by omega, ?_⟩
    rw [actualDim_eq_get b idx.1 idx.2 (by omega)]
    rw [show (⟨idx.1, idx.2⟩ : Fin (nonHiddenAxes b).length) = idx from rfl,
      hidx]
  · intro p q hq hpq ap aq hap haq
    have hq' : q < (nonHiddenAxes b).length := by omega
    have hp' : p < (nonHiddenAxes b).length := by omega
    rw [actualDim_eq_get b p hp' (by omega)] at hap
    rw [actualDim_eq_get b q hq' hq] at haq
    have h1 : ap = (((nonHiddenAxes b).get ⟨p, hp'⟩ : Nat) : Int) :=
      (Except.ok.injEq _ _ ▸ hap).symm
    have h2 : aq = (((nonHiddenAxes b).get ⟨q, hq'⟩ : Nat) : Int) :=
      (Except.ok.injEq _ _ ▸ haq).symm
    have hlt : (nonHiddenAxes b).get ⟨p, hp'⟩ < (nonHiddenAxes b).get ⟨q, hq'⟩ :=
      List.pairwise_iff_get.mp (nonHiddenAxes_sorted b) ⟨p, hp'⟩ ⟨q, hq'⟩ hpq
    omega

/-- Witness for claim C1 at the concrete rank-4 scenario. -/
theorem actualDim_translation_correct_witness :
    ∃ a : Nat, actualDim bt4 (0 : Nat) true = Except.ok (a : Int) ∧
      a < bt4.value.length ∧ isBdim bt4 a = false :=
  (actualDim_translation_correct bt4
    (by refine ⟨?_, ?_, ?_⟩ <;> decide)).1 0 (by decide)

/-- Claim C2: the concrete rank-4 scenario with hidden dims
[(level 1, dim 0), (level 2, dim 1)]: publicRank is 2, actualDim maps 0 to
2 and 1 to 3, actualDim 2 fails with DimOutOfRange, and sizes returns the
underlying sizes at indices 2 and 3 in that order. -/
theorem batched_rank4_scenario (s0 s1 s2 s3 : Int) :
    publicRank ⟨[s0, s1, s2, s3], [⟨1, 0⟩, ⟨2, 1⟩]⟩ = 2 ∧
    actualDim ⟨[s0, s1, s2, s3], [⟨1, 0⟩, ⟨2, 1⟩]⟩ 0 true = Except.ok 2 ∧
    actualDim ⟨[s0, s1, s2, s3], [⟨1, 0⟩, ⟨2, 1⟩]⟩ 1 true = Except.ok 3 ∧
    actualDim ⟨[s0, s1, s2, s3], [⟨1, 0⟩, ⟨2, 1⟩]⟩ 2 true
      = Except.error VmapError.DimOutOfRange ∧
    sizes ⟨[s0, s1, s2, s3], [⟨1, 0⟩, ⟨2, 1⟩]⟩ = [s2, s3] := by
  refine ⟨rfl, rfl, rfl, rfl, rfl⟩

/-- Claim C3: every one of the structural queries and mutators refuses
with NotSupported on every BatchedValue, regardless of arguments. -/
theorem structural_queries_refuse :
    (∀ (b : BatchedTensorImpl) (fmt : MemoryFormat),
      is_contiguous b fmt = Except.error VmapError.NotSupported) ∧
    (∀ b : BatchedTensorImpl,
      strides b = Except.error VmapError.NotSupported) ∧
    (∀ (b : BatchedTensorImpl) (d : Int),
      stride b d = Except.error VmapError.NotSupported) ∧
    (∀ (b : BatchedTensorImpl) (d n : Int),
      set_size b d n = Except.error VmapError.NotSupported) ∧
    (∀ (b : BatchedTensorImpl) (d n : Int),
      set_stride b d n = Except.error VmapError.NotSupported) ∧
    (∀ (b : BatchedTensorImpl) (o : Int),
      set_storage_offset b o = Except.error VmapError.NotSupported) ∧
    (∀ b : BatchedTensorImpl,
      has_storage b = Except.error VmapError.NotSupported) ∧
    (∀ b : BatchedTensorImpl,
      storage b = Except.error VmapError.NotSupported) ∧
    (∀ b : BatchedTensorImpl,
      storage_offset b = Except.error VmapError.NotSupported) :=
  ⟨fun _ _ => rfl, fun _ => rfl, fun _ _ => rfl, fun _ _ _ => rfl,
   fun _ _ _ => rfl, fun _ _ => rfl, fun _ => rfl, fun _ => rfl, fun _ => rfl⟩

/-- Claim C4: makeBatched fails with AlreadyWrapped on an already-batched
value, fails with RankExceeded when the rank exceeds 64 (so rank 65 is
rejected), and otherwise produces a new wrapper owning the value with the
caller-supplied hidden-dim sequence copied in unchanged. -/
theorem makeBatched_guards :
    (∀ (b : BatchedTensorImpl) (bdims : BatchDims),
      makeBatched (Tensor.batched b) bdims
        = Except.error VmapError.AlreadyWrapped) ∧
    (∀ (s : List Int) (bdims : BatchDims), 64 < s.length →
      makeBatched (Tensor.plain s) bdims
        = Except.error VmapError.RankExceeded) ∧
    (∀ (s : List Int) (bdims : BatchDims), s.length ≤ 64 →
      makeBatched (Tensor.plain s) bdims
        = Except.ok (Tensor.batched ⟨s, bdims⟩)) := by
  refine ⟨fun b bdims => rfl, fun s bdims h => ?_, fun s bdims h => ?_⟩
  · have hc : kVmapMaxTensorDims < (Tensor.plain s).dim := by
      simp only [kVmapMaxTensorDims, Tensor.dim]
      omega
    simp [makeBatched, isBatched, hc]
  · have hc : ¬ kVmapMaxTensorDims < (Tensor.plain s).dim := by
      simp only [kVmapMaxTensorDims, Tensor.dim]
      omega
    simp [makeBatched, isBatched, hc, Tensor.rawSizes]

/-- Witness for claim C4: a rank-65 value is rejected with RankExceeded
and a rank-1 value is wrapped with its hidden-dim sequence unchanged. -/
theorem makeBatched_guards_witness :
    makeBatched (Tensor.plain (List.replicate 65 0)) []
      = Except.error VmapError.RankExceeded ∧
    makeBatched (Tensor.plain [5]) [⟨1, 0⟩]
      = Except.ok (Tensor.batched ⟨[5], [⟨1, 0⟩]⟩) :=
  ⟨makeBatched_guards.2.1 (List.replicate 65 0) [] (by simp),
   makeBatched_guards.2.2 [5] [⟨1, 0⟩] (by simp)⟩

/-- Claim C5: values built by the public entry points (makeBatched with
well-formed inputs, addHiddenDim with a fresh maximal level and a valid
unhidden axis) satisfy the invariants: levels strictly ascending, dims
pairwise distinct and in range, and publicRank plus the number of hidden
dims equals the underlying rank (with publicRank non-negative). -/
theorem construction_preserves_invariants :
    (∀ (s : List Int) (bdims : BatchDims) (b : BatchedTensorImpl),
      WellFormedDims s.length bdims →
      makeBatched (Tensor.plain s) bdims = Except.ok (Tensor.batched b) →
      WellFormed b ∧
      publicRank b + (b.bdims.length : Int) = (b.value.length : Int) ∧
      0 ≤ publicRank b) ∧
    (∀ (b : BatchedTensorImpl) (level dim : Int),
      WellFormed b →
      (∀ bd ∈ b.bdims, bd.level < level) →
      0 ≤ dim → dim < (b.value.length : Int) → isBdim b dim.toNat = false →
      WellFormed (addHiddenDim b level dim) ∧
      publicRank (addHiddenDim b level dim)
          + ((addHiddenDim b level dim).bdims.length : Int)
        = ((addHiddenDim b level dim).value.length : Int) ∧
      0 ≤ publicRank (addHiddenDim b level dim)) := by
  constructor
  · intro s bdims b hwf hmk
    by_cases hc : kVmapMaxTensorDims < (Tensor.plain s).dim
    · simp [makeBatched, isBatched, hc] at hmk
    · simp [makeBatched, isBatched, hc, Tensor.rawSizes] at hmk
      obtain ⟨rfl, rfl⟩ := hmk
      obtain ⟨h1, h2, h3⟩ := hwf
      refine ⟨⟨h1, h2, h3⟩, by simp [publicRank], ?_⟩
      have hle : bdims.length ≤ s.length := bdims_length_le ⟨s, bdims⟩ h2 h3
      show (0 : Int) ≤ (s.length : Int) - (bdims.length : Int)
      omega
  · intro b level dim hwf hlvl hd0 hdlt hfree
    obtain ⟨h1, h2, h3⟩ := hwf
    have hdim_notmem : dim ∉ b.bdims.map BatchDim.dim := by
      intro hmem
      obtain ⟨bd, hbd, hbdim⟩ := List.mem_map.mp hmem
      have : isBdim b dim.toNat = true := by
        rw [isBdim_eq_true_iff]
        exact ⟨bd, hbd, by omega⟩
      simp [this] at hfree
    have hwf' : WellFormed (addHiddenDim b level dim) := by
      refine ⟨?_, ?_, ?_⟩
      · simp only [addHiddenDim]
        rw [List.pairwise_append]
        exact ⟨h1, List.pairwise_singleton _ _,
          fun x hx y hy => by
            simp only [List.mem_singleton] at hy
            subst hy
            exact hlvl x hx⟩
      · simp only [addHiddenDim, List.map_append, List.map_cons,
          List.map_nil]
        rw [List.nodup_append]
        exact ⟨h2, List.nodup_singleton _,
          fun x hx => by
            simp only [List.mem_singleton]
            intro hxd
            subst hxd
            exact hdim_notmem hx⟩
      · simp only [addHiddenDim]
        intro bd hbd
        rcases List.mem_append.mp hbd with hmem | hmem
        · exact h3 bd hmem
        · simp only [List.mem_singleton] at hmem
          subst hmem
          exact ⟨hd0, hdlt⟩
    refine ⟨hwf', by simp [publicRank, addHiddenDim], ?_⟩
    obtain ⟨_, h2', h3'⟩ := hwf'
    have := bdims_length_le (addHiddenDim b level dim) h2' h3'
    simp only [publicRank]
    omega

/-- Witness for claim C5 at the concrete rank-4 wrapper. -/
theorem construction_preserves_invariants_witness :
    WellFormed (addHiddenDim bt4 3 2) ∧
    publicRank (addHiddenDim bt4 3 2)
        + ((addHiddenDim bt4 3 2).bdims.length : Int)
      = ((addHiddenDim bt4 3 2).value.length : Int) ∧
    0 ≤ publicRank (addHiddenDim bt4 3 2) :=
  construction_preserves_invariants.2 bt4 3 2
    (by refine ⟨?_, ?_, ?_⟩ <;> decide)
    (by decide) (by decide) (by decide) (by decide)

/-- Claim C6: with negative-index wrapping enabled, actualDim on a
negative public index p with -publicRank <= p < 0 agrees with actualDim
on p + publicRank. -/
theorem actualDim_negative_wrap (b : BatchedTensorImpl) (p : Int)
    (h1 : -publicRank b ≤ p) (h2 : p < 0) :
    actualDim b p true = actualDim b (p + publicRank b) true := by
  have h3 : ¬ p + publicRank b < 0 := by omega
  simp [actualDim, h2, h3]

/-- Witness for claim C6 on a rank-1 wrapper with no hidden dims. -/
theorem actualDim_negative_wrap_witness :
    actualDim ⟨[5], []⟩ (-1) true
      = actualDim ⟨[5], []⟩ (-1 + publicRank ⟨[5], []⟩) true :=
  actualDim_negative_wrap ⟨[5], []⟩ (-1) (by decide) (by decide)

/-- Claim C7: under the addHiddenDim preconditions (a level strictly above
every existing one, a valid currently-unhidden axis of the same underlying
value), the result is a fresh wrapper over the same underlying value whose
hidden-dim sequence is the old one with the new pair appended; in the
rank-4 scenario, appending (level 3, dim 2) gives publicRank 1 and
actualDim 0 translating to underlying axis 3. -/
theorem addHiddenDim_appends :
    (∀ (b : BatchedTensorImpl) (level dim : Int),
      (∀ bd ∈ b.bdims, bd.level < level) →
      0 ≤ dim → dim < (b.value.length : Int) → isBdim b dim.toNat = false →
      (addHiddenDim b level dim).value = b.value ∧
      (addHiddenDim b level dim).bdims = b.bdims ++ [⟨level, dim⟩]) ∧
    (∀ s0 s1 s2 s3 : Int,
      publicRank (addHiddenDim ⟨[s0, s1, s2, s3], [⟨1, 0⟩, ⟨2, 1⟩]⟩ 3 2) = 1 ∧
      actualDim (addHiddenDim ⟨[s0, s1, s2, s3], [⟨1, 0⟩, ⟨2, 1⟩]⟩ 3 2) 0 true
        = Except.ok 3) :=
  ⟨fun _ _ _ _ _ _ _ => ⟨rfl, rfl⟩, fun _ _ _ _ => ⟨rfl, rfl⟩⟩

/-- Witness for claim C7 at the concrete rank-4 wrapper. -/
theorem addHiddenDim_appends_witness :
    (addHiddenDim bt4 3 2).value = bt4.value ∧
    (addHiddenDim bt4 3 2).bdims = bt4.bdims ++ [⟨3, 2⟩] :=
  addHiddenDim_appends.1 bt4 3 2 (by decide) (by decide) (by decide)
    (by decide)

/-- Claim C8: maybeGetBatched returns the wrapper exactly when isBatched
holds and null (none) otherwise; it is total, never failing on any
tensor. -/
theorem maybeGetBatched_iff_isBatched (t : Tensor) :
    ((maybeGetBatched t).isSome = isBatched t) ∧
    (∀ b : BatchedTensorImpl, maybeGetBatched t = some b →
      isBatched t = true ∧ t = Tensor.batched b) ∧
    (isBatched t = false → maybeGetBatched t = none) := by
  cases t <;> simp [maybeGetBatched, isBatched]

/-- Witness for claim C8 on a plain tensor. -/
theorem maybeGetBatched_iff_isBatched_witness :
    maybeGetBatched (Tensor.plain [2]) = none :=
  (maybeGetBatched_iff_isBatched (Tensor.plain [2])).2.2 rfl

/-- Claim C9: for a well-formed BatchedValue, sizes has length publicRank
and each public position holds the underlying size at the axis actualDim
translates it to. -/
theorem sizes_matches_actualDim (b : BatchedTensorImpl)
    (h : WellFormed b) :
    ((sizes b).length : Int) = publicRank b ∧
    (∀ p : Nat, p < (sizes b).length →
      ∃ a : Nat, actualDim b (p : Int) true = Except.ok (a : Int) ∧
        (sizes b).getD p 0 = b.value.getD a 0) := by
  obtain ⟨_hlvl, hnd, hin⟩ := h
  have hlen := publicRank_eq_length b hnd hin
  have hslen : (sizes b).length = (nonHiddenAxes b).length :=
    List.length_map _ _
  refine ⟨by omega, ?_⟩
  intro p hp
  have hp' : p < (nonHiddenAxes b).length := by omega
  refine ⟨(nonHiddenAxes b).get ⟨p, hp'⟩,
    actualDim_eq_get b p hp' (by omega), ?_⟩
  rw [List.getD_eq_get _ _ hp]
  simp only [sizes]
  rw [List.get_map]

/-- Witness for claim C9 at the concrete rank-4 wrapper. -/
theorem sizes_matches_actualDim_witness :
    ∃ a : Nat, actualDim bt4 (0 : Nat) true = Except.ok (a : Int) ∧
      (sizes bt4).getD 0 0 = bt4.value.getD a 0 :=
  (sizes_matches_actualDim bt4
    (by refine ⟨?_, ?_, ?_⟩ <;> decide)).2 0 (by decide)

theorem testBit_foldl_or (l : BatchDims) (s : Nat) (i : Nat) :
    (l.foldl (fun acc bd => acc ||| 2 ^ bd.dim.toNat) s).testBit i
      = (s.testBit i || l.any (fun bd => bd.dim.toNat == i)) := by
  induction l generalizing s with
  | nil => simp
  | cons bd l ih =>
    rw [List.foldl_cons, ih, List.any_cons]
    rw [Nat.testBit_or, Nat.testBit_two_pow]
    cases hs : s.testBit i <;> cases hd : bd.dim.toNat == i <;>
      simp_all

theorem testBit_createBatchDimBitset (l : BatchDims) (i : Nat) :
    (createBatchDimBitset l).testBit i
      = l.any (fun bd => bd.dim.toNat == i) := by
  rw [createBatchDimBitset, testBit_foldl_or]
  simp

theorem any_dim_toNat_eq_any_dim (l : BatchDims)
    (h : ∀ bd ∈ l, 0 ≤ bd.dim) (i : Nat) :
    l.any (fun bd => bd.dim.toNat == i) = l.any (fun bd => bd.dim == (i : Int)) := by
  induction l with
  | nil => rfl
  | cons bd l ih =>
    have hbd := h bd (List.mem_cons_self bd l)
    have hrest : ∀ x ∈ l, 0 ≤ x.dim := fun x hx => h x (List.mem_cons_of_mem bd hx)
    rw [List.any_cons, List.any_cons, ih hrest]
    cases h1 : bd.dim.toNat == i <;> cases h2 : bd.dim == (i : Int) <;>
      simp_all <;> omega

theorem foldl_or_lt_two_pow (l : BatchDims) :
    ∀ s : Nat, s < 2 ^ 64 → (∀ bd ∈ l, bd.dim.toNat < 64) →
      l.foldl (fun acc bd => acc ||| 2 ^ bd.dim.toNat) s < 2 ^ 64 := by
  induction l with
  | nil => exact fun _ hs _ => hs
  | cons bd l ih =>
    intro s hs h
    rw [List.foldl_cons]
    refine ih _ ?_ (fun x hx => h x (List.mem_cons_of_mem bd hx))
    refine Nat.or_lt_two_pow hs ?_
    have hd := h bd (List.mem_cons_self bd l)
    exact Nat.pow_lt_pow_right (by omega) hd

/-- Claim C10: for a hidden-dim sequence whose dims lie in [0, 64),
createBatchDimBitset sets exactly the bits at the dim values (and fits in
64 bits), and the result depends only on the set of dim values, not on
levels or order. -/
theorem createBatchDimBitset_correct (l : BatchDims)
    (h : ∀ bd ∈ l, 0 ≤ bd.dim ∧ bd.dim < 64) :
    (∀ i : Nat, (createBatchDimBitset l).testBit i
        = l.any (fun bd => bd.dim == (i : Int))) ∧
    createBatchDimBitset l < 2 ^ 64 ∧
    (∀ l2 : BatchDims, (∀ bd ∈ l2, 0 ≤ bd.dim ∧ bd.dim < 64) →
      (∀ j : Int, l.any (fun bd => bd.dim == j) = l2.any (fun bd => bd.dim == j)) →
      createBatchDimBitset l = createBatchDimBitset l2) := by
  have hchar : ∀ (m : BatchDims), (∀ bd ∈ m, 0 ≤ bd.dim ∧ bd.dim < 64) →
      ∀ i : Nat, (createBatchDimBitset m).testBit i
        = m.any (fun bd => bd.dim == (i : Int)) := by
    intro m hm i
    rw [testBit_createBatchDimBitset]
    exact any_dim_toNat_eq_any_dim m (fun bd hbd => (hm bd hbd).1) i
  refine ⟨hchar l h, ?_, ?_⟩
  · rw [createBatchDimBitset]
    exact foldl_or_lt_two_pow l 0 (by norm_num)
      (fun bd hbd => by have := h bd hbd; omega)
  · intro l2 h2 hsame
    refine Nat.eq_of_testBit_eq fun i => ?_
    rw [hchar l h i, hchar l2 h2 i]
    exact hsame (i : Int)

/-- Witness for claim C10 on a concrete two-element sequence at bit 5. -/
theorem createBatchDimBitset_correct_witness :
    (createBatchDimBitset [⟨1, 0⟩, ⟨2, 5⟩]).testBit 5
      = [(⟨1, 0⟩ : BatchDim), ⟨2, 5⟩].any (fun bd => bd.dim == ((5 : Nat) : Int)) :=
  (createBatchDimBitset_correct [⟨1, 0⟩, ⟨2, 5⟩] (by decide)).1 5

end Vmap
